import Mathlib

/-!
Verification of the RecipeSnap ingredient-editing UI core and of the
ingredient-extraction / recipe-matching pipeline.  The React front-end
(`frontend/src`) is embedded shallowly: component state becomes a structure and
each handler a pure state-transition function.  The back-end matcher and
extractor are not among the repository's staged sources, so they are modelled
from the specification's own words (each such definition says so in its doc
comment).
-/

namespace RecipeSnap

/-- The `Recipe` record from `frontend/src/types/index.ts`: static catalog
fields plus the optional `match_score` / `matched_ingredients` fields the
matcher annotates.  TypeScript numbers carrying scores are modelled as `ℚ`. -/
structure Recipe where
  id : Nat
  title : String
  description : String
  ingredients : List String
  instructions : List String
  prep_time : String
  cook_time : String
  servings : Nat
  difficulty : String
  cuisine : String
  source : Option String := none
  match_score : Option ℚ := none
  matched_ingredients : Option Nat := none
deriving DecidableEq

/-- Characters removed by JavaScript's `String.prototype.trim` (the ASCII
whitespace cases used throughout this development). -/
def isTrimmable (c : Char) : Bool :=
  c = ' ' || c = '\t' || c = '\n' || c = '\r'

/-- Shallow embedding of JavaScript's `String.prototype.trim`: strip leading
and trailing whitespace characters. -/
def jsTrim (s : String) : String :=
  ⟨((s.data.dropWhile isTrimmable).reverse.dropWhile isTrimmable).reverse⟩

/-- Local state of the `IngredientsList` component
(`frontend/src/components/IngredientsList.tsx`): the editable ingredient list
and the pending text-input value (`newIngredient`). -/
structure IngredientsState where
  ingredients : List String
  newIngredient : String
deriving DecidableEq

/-- `addIngredient` from `IngredientsList.tsx` lines 20-25: when the trimmed
input is non-empty (truthy) and not already in the list — membership tested by
`Array.prototype.includes`, i.e. exact string equality — append the trimmed
string and clear the input; otherwise leave the state unchanged. -/
def addIngredient (s : IngredientsState) : IngredientsState :=
  let t := jsTrim s.newIngredient
  if t ≠ "" ∧ t ∉ s.ingredients then
    { ingredients := s.ingredients ++ [t], newIngredient := "" }
  else s

/-- JavaScript's `Array.prototype.filter` with the element index passed to the
callback, as `removeIngredient` uses it; `start` is the index of the first
element of the remaining list. -/
def filterWithIndex (p : Nat → String → Bool) : Nat → List String → List String
  | _, [] => []
  | i, x :: xs =>
    if p i x then x :: filterWithIndex p (i + 1) xs else filterWithIndex p (i + 1) xs

/-- `removeIngredient` from `IngredientsList.tsx` lines 27-29:
`ingredients.filter((_, i) => i !== index)`. -/
def removeIngredient (ingredients : List String) (index : Nat) : List String :=
  filterWithIndex (fun i _ => i != index) 0 ingredients

/-- The view states of `App.tsx`: `type AppState = 'upload' | 'ingredients' | 'recipes'`. -/
inductive AppView
  | upload
  | ingredients
  | recipes
deriving DecidableEq

/-- The slice of `App.tsx` state touched by `handleGenerateRecipes`. -/
structure AppState where
  currentState : AppView
  recipes : List Recipe
  isLoading : Bool
  error : Option String
deriving DecidableEq

/-- Outcome of the `generateRecipes` API call as `handleGenerateRecipes`
observes it: a response with `success = true` carrying recipes, a response with
`success = false`, or a thrown error carrying a message. -/
inductive GenerateOutcome
  | success (recipes : List Recipe)
  | failure
  | thrown (msg : String)
deriving DecidableEq

/-- The error text `App.tsx` stores when the response has `success = false`. -/
def generateFailedMsg : String := "Failed to generate recipes"

/-- `handleGenerateRecipes` from `App.tsx` lines 51-68 as a state transition:
loading is set and the error cleared, then on success the recipes are stored
and the view moves to `recipes`; on a `success = false` response a fixed error
message is set; on a thrown error its message is set; `finally` clears the
loading flag. -/
def handleGenerateRecipes (s : AppState) (o : GenerateOutcome) : AppState :=
  match o with
  | .success rs =>
    { s with recipes := rs, currentState := .recipes, error := none, isLoading := false }
  | .failure => { s with error := some generateFailedMsg, isLoading := false }
  | .thrown msg => { s with error := some msg, isLoading := false }

/-- JavaScript truthiness of a number: `0` is falsy (`NaN`, also falsy, has no
`ℚ` representative). -/
def numTruthy (q : ℚ) : Bool := q != 0

/-- JavaScript truthiness of a count. -/
def natTruthy (n : Nat) : Bool := n != 0

/-- Whether `RecipeCard` (`RecipeCard.tsx`) renders the ingredient-match block:
the JSX guard `{recipe.match_score && (...)}` — falsy when the field is absent
or zero. -/
def showsMatchBlock (r : Recipe) : Bool :=
  match r.match_score with
  | none => false
  | some q => numTruthy q

/-- Whether `RecipeCard` renders the matched-ingredients count, which sits
inside the match block behind `{recipe.matched_ingredients && (...)}`. -/
def showsMatchedCount (r : Recipe) : Bool :=
  showsMatchBlock r &&
    (match r.matched_ingredients with
     | none => false
     | some n => natTruthy n)

/-! ## The back-end pipeline, modelled from the specification

The repository's staged sources contain only the React front-end; the Recipe
Matcher and the Ingredient Extractor live in the back-end
(`backend/app/models/recipe_generator.py`, `backend/app/models/image_analyzer.py`),
which is absent.  The definitions below are therefore modelled from the
specification's words, as their doc comments record. -/

/-- Modelled from the spec: case normalization of an ingredient name or caption
("case-insensitively", §4.1/§4.2) — lowercase every character. -/
def normalize (s : String) : String := ⟨s.data.map Char.toLower⟩

/-- Contiguous-substring test on character lists: does `needle` occur as an
infix of the second list?  Used for the spec's containment tolerance. -/
def charsContains : List Char → List Char → Bool
  | needle, [] => needle.isEmpty
  | needle, c :: rest => needle.isPrefixOf (c :: rest) || charsContains needle rest

/-- Modelled from the spec (§4.2): a user ingredient matches a recipe
ingredient "if one contains the other after normalization", e.g. "tomato"
matches "Tomatoes". -/
def ingMatches (userIng recipeIng : String) : Bool :=
  charsContains (normalize userIng).data (normalize recipeIng).data ||
    charsContains (normalize recipeIng).data (normalize userIng).data

/-- Modelled from the spec (§4.2): a recipe ingredient counts as available when
some entry of the user's list matches it.  Duplicates in the user list cannot
change this, which realises "duplicates treated as a single occurrence". -/
def ingredientAvailable (userIngs : List String) (recipeIng : String) : Bool :=
  userIngs.any (fun u => ingMatches u recipeIng)

/-- The spec's `MatchResult` (§3): a recipe annotated with its `match_score`
and its `matched_ingredients` count. -/
structure MatchResult where
  recipe : Recipe
  match_score : ℚ
  matched_ingredients : Nat
deriving DecidableEq

/-- Modelled from the spec (§4.2): score one recipe — `matched` counts the
recipe ingredients available in the user's set and
`match_score = matched / len(recipe.ingredients)` (0 for a degenerate empty
ingredient list, which the catalog invariant rules out). -/
def mkResult (userIngs : List String) (r : Recipe) : MatchResult :=
  let matched := (r.ingredients.filter (fun ing => ingredientAvailable userIngs ing)).length
  { recipe := r
    match_score :=
      if r.ingredients.length = 0 then 0
      else (matched : ℚ) / (r.ingredients.length : ℚ)
    matched_ingredients := matched }

/-- Modelled from the spec (§4.2): the ranking comparator — descending
`match_score`, ties by descending `matched` count, then ascending recipe
identifier "for full determinism". -/
def rankRel (a b : MatchResult) : Prop :=
  a.match_score > b.match_score ∨
    (a.match_score = b.match_score ∧
      (a.matched_ingredients > b.matched_ingredients ∨
        (a.matched_ingredients = b.matched_ingredients ∧ a.recipe.id ≤ b.recipe.id)))

instance : DecidableRel rankRel := fun a b => by
  unfold rankRel
  exact inferInstance

instance : IsTotal MatchResult rankRel := by
  constructor
  intro a b
  unfold rankRel
  rcases lt_trichotomy a.match_score b.match_score with hs | hs | hs
  · exact Or.inr (Or.inl hs)
  · rcases Nat.lt_trichotomy a.matched_ingredients b.matched_ingredients with hm | hm | hm
    · exact Or.inr (Or.inr ⟨hs.symm, Or.inl hm⟩)
    · rcases Nat.le_total a.recipe.id b.recipe.id with hi | hi
      · exact Or.inl (Or.inr ⟨hs, Or.inr ⟨hm, hi⟩⟩)
      · exact Or.inr (Or.inr ⟨hs.symm, Or.inr ⟨hm.symm, hi⟩⟩)
    · exact Or.inl (Or.inr ⟨hs, Or.inl hm⟩)
  · exact Or.inl (Or.inl hs)

instance : IsTrans MatchResult rankRel := by
  constructor
  intro a b c hab hbc
  unfold rankRel at hab hbc ⊢
  rcases hab with hs1 | ⟨es1, hm1⟩
  · rcases hbc with hs2 | ⟨es2, _⟩
    · exact Or.inl (lt_trans hs2 hs1)
    · exact Or.inl (es2 ▸ hs1)
  · rcases hbc with hs2 | ⟨es2, hm2⟩
    · exact Or.inl (es1 ▸ hs2)
    · refine Or.inr ⟨es1.trans es2, ?_⟩
      rcases hm1 with hm1 | ⟨em1, hi1⟩
      · rcases hm2 with hm2 | ⟨em2, _⟩
        · exact Or.inl (lt_trans hm2 hm1)
        · exact Or.inl (em2 ▸ hm1)
      · rcases hm2 with hm2 | ⟨em2, hi2⟩
        · exact Or.inl (em1 ▸ hm2)
        · exact Or.inr ⟨em1.trans em2, le_trans hi1 hi2⟩

/-- Modelled from the spec (§4.2): comparator choosing the fallback subset —
"top N recipes by lowest ingredient-count / simplest-to-make", ties broken by
ascending identifier so the subset is deterministic. -/
def simplerRel (a b : Recipe) : Prop :=
  a.ingredients.length < b.ingredients.length ∨
    (a.ingredients.length = b.ingredients.length ∧ a.id ≤ b.id)

instance : DecidableRel simplerRel := fun a b => by
  unfold simplerRel
  exact inferInstance

/-- Modelled from the spec (§4.2): the fixed size of the matcher's fallback
subset — a product-defined constant the spec leaves open (§9); three is chosen
and documented here. -/
def fallbackCount : Nat := 3

/-- Modelled from the spec (§4.2): the deterministic fallback subset — the
`fallbackCount` simplest recipes of the catalog, each annotated with
`match_score = 0`. -/
def fallbackResults (catalog : List Recipe) : List MatchResult :=
  ((List.insertionSort simplerRel catalog).take fallbackCount).map
    (fun r => { recipe := r, match_score := 0, matched_ingredients := 0 })

/-- Modelled from the spec (§4.2): the Recipe Matcher's `match` — score every
catalog recipe, drop the zero scores, rank the rest; if nothing remains,
return the fixed fallback subset so a non-empty catalog never yields an empty
result. -/
def matchRecipes (userIngs : List String) (catalog : List Recipe) : List MatchResult :=
  let primary := (catalog.map (mkResult userIngs)).filter (fun mr => mr.match_score != 0)
  if primary = [] then fallbackResults catalog
  else List.insertionSort rankRel primary

/-- Modelled from the spec (§2, §4.1): the Caption Store — an immutable table
from caption keywords to canonical ingredient names.  The modelled table maps
distinct keywords to distinct canonical names, so the matched canonicals are
already distinct. -/
def captionStore : List (String × String) :=
  [("tomato", "Tomatoes"), ("cheese", "Cheese"), ("egg", "Eggs"),
   ("milk", "Milk"), ("onion", "Onions"), ("broccoli", "Broccoli"),
   ("carrot", "Carrots"), ("lettuce", "Lettuce"), ("chicken", "Chicken"),
   ("bread", "Bread")]

/-- Modelled from the spec: the canonical ingredient names the Caption Store
recognises. -/
def canonicalNames : List String := captionStore.map (fun kv => kv.2)

/-- Modelled from the spec (§4.1): the fixed, deterministic fallback ingredient
set — the spec's own example preset "Milk, Eggs, Cheese, Tomatoes, Onions". -/
def fallbackIngredients : List String :=
  ["Milk", "Eggs", "Cheese", "Tomatoes", "Onions"]

/-- Modelled from the spec (§4.1): the minimum number of distinct detected
ingredients below which the extractor falls back ("fewer than 3"). -/
def minIngredients : Nat := 3

/-- Modelled from the spec (§4.1): the keyword scan — canonical names whose
keyword occurs case-insensitively in the caption. -/
def detectIngredients (caption : String) : List String :=
  (captionStore.filter
      (fun kv => charsContains (normalize kv.1).data (normalize caption).data)).map
    (fun kv => kv.2)

/-- Modelled from the spec (§4.1, §8): confidence reported on the fallback
path — below the detection threshold, never absent. -/
def fallbackConfidence : ℚ := 3/10

/-- Modelled from the spec (§4.1): confidence reported when enough specific
keywords were detected. -/
def detectionConfidence : ℚ := 4/5

/-- Modelled from the spec (§4.1): the Ingredient Extractor's
`extract(caption) -> (ingredients, confidence)` — collect the canonical names
of the keywords found in the caption; if fewer than `minIngredients` distinct
ingredients were detected, return the fixed fallback set with low confidence. -/
def extract (caption : String) : List String × ℚ :=
  let found := detectIngredients caption
  if found.length < minIngredients then (fallbackIngredients, fallbackConfidence)
  else (found, detectionConfidence)

/-- The recipe of the spec's worked example (§8): ingredients
`["Tomatoes", "Cheese", "Eggs", "Basil"]`. -/
def exampleRecipe : Recipe :=
  { id := 1
    title := "Caprese Omelette"
    description := "Omelette with tomato, cheese and basil."
    ingredients := ["Tomatoes", "Cheese", "Eggs", "Basil"]
    instructions := ["Beat the eggs.", "Cook with the tomato, cheese and basil."]
    prep_time := "10 min"
    cook_time := "10 min"
    servings := 2
    difficulty := "Easy"
    cuisine := "Italian" }

/-! ## Helper lemmas -/

/-- When every remaining index exceeds the removal index, the indexed filter
keeps everything. -/
lemma filterWithIndex_keep_all (index : Nat) (xs : List String) (start : Nat)
    (h : index < start) : filterWithIndex (fun i _ => i != index) start xs = xs := by
  induction xs generalizing start with
  | nil => rfl
  | cons x rest ih =>
    have hb : (start != index) = true := by
      simp only [bne_iff_ne, ne_eq]
      omega
    simp [filterWithIndex, hb, ih (start + 1) (by omega)]

/-- The indexed filter that drops index `index`, started at offset `start ≤ index`,
removes exactly the element `index - start` positions in. -/
lemma filterWithIndex_drop_at (index : Nat) (xs : List String) (start : Nat)
    (h : start ≤ index) :
    filterWithIndex (fun i _ => i != index) start xs =
      xs.take (index - start) ++ xs.drop (index - start + 1) := by
  induction xs generalizing start with
  | nil => simp [filterWithIndex]
  | cons x rest ih =>
    by_cases hs : start = index
    · subst hs
      have hb : (start != start) = false := by simp
      simp [filterWithIndex, hb, filterWithIndex_keep_all start rest (start + 1) (by omega)]
    · have hlt : start < index := lt_of_le_of_ne h hs
      have hb : (start != index) = true := by
        simp only [bne_iff_ne, ne_eq]
        exact hs
      have harith : index - start = (index - (start + 1)) + 1 := by omega
      simp [filterWithIndex, hb, ih (start + 1) (by omega), harith]

/-- The ranking comparator implies the spec's disjunctive ordering statement. -/
lemma rankRel_imp_claim {A B : MatchResult} (h : rankRel A B) :
    A.match_score > B.match_score ∨
      (A.match_score = B.match_score ∧ A.matched_ingredients ≥ B.matched_ingredients) ∨
      (A.match_score = B.match_score ∧ A.matched_ingredients = B.matched_ingredients ∧
        A.recipe.id < B.recipe.id) := by
  rcases h with h | ⟨e, h | ⟨e2, _⟩⟩
  · exact Or.inl h
  · exact Or.inr (Or.inl ⟨e, le_of_lt h⟩)
  · exact Or.inr (Or.inl ⟨e, le_of_eq e2.symm⟩)

/-- The fallback subset of a non-empty catalog is non-empty. -/
lemma fallbackResults_ne_nil (c : List Recipe) (h : c ≠ []) : fallbackResults c ≠ [] := by
  have hlen : (List.insertionSort simplerRel c).length = c.length :=
    (List.perm_insertionSort simplerRel c).length_eq
  have hc : 0 < c.length := List.length_pos.mpr h
  intro hnil
  have hlen2 := congrArg List.length hnil
  simp only [fallbackResults, fallbackCount, List.length_map, List.length_take,
    List.length_nil, hlen] at hlen2
  omega

/-- Every element of the fallback subset carries `match_score = 0`. -/
lemma fallbackResults_score_zero (c : List Recipe) :
    ∀ mr ∈ fallbackResults c, mr.match_score = 0 := by
  intro mr hmr
  unfold fallbackResults at hmr
  obtain ⟨r, _, rfl⟩ := List.mem_map.mp hmr
  rfl

/-! ## The claims -/

/-- C1: for every recipe and user ingredient list, `matched_ingredients` counts
the recipe ingredients whose canonical form appears in the user's set
(containment tolerance after normalization) and
`match_score = matched / len(recipe.ingredients)` lies in `[0, 1]`; in
particular user ingredients `["tomato", "cheese", "eggs"]` against the recipe
with ingredients `["Tomatoes", "Cheese", "Eggs", "Basil"]` score `0.75` with
`3` matched ingredients. -/
theorem mkResult_score_spec (u : List String) (r : Recipe) (h : r.ingredients ≠ []) :
    (mkResult u r).matched_ingredients =
        (r.ingredients.filter (fun ing => ingredientAvailable u ing)).length ∧
    (mkResult u r).match_score =
        ((mkResult u r).matched_ingredients : ℚ) / (r.ingredients.length : ℚ) ∧
    0 ≤ (mkResult u r).match_score ∧ (mkResult u r).match_score ≤ 1 ∧
    (mkResult ["tomato", "cheese", "eggs"] exampleRecipe).match_score = 3/4 ∧
    (mkResult ["tomato", "cheese", "eggs"] exampleRecipe).matched_ingredients = 3 := by
  have hlen : r.ingredients.length ≠ 0 := by
    simpa [List.length_eq_zero] using h
  have hlpos : (0 : ℚ) < (r.ingredients.length : ℚ) := by
    exact_mod_cast Nat.pos_of_ne_zero hlen
  have hfle : ((r.ingredients.filter (fun ing => ingredientAvailable u ing)).length : ℚ)
      ≤ (r.ingredients.length : ℚ) := by
    exact_mod_cast List.length_filter_le _ _
  have hm3 : ((exampleRecipe.ingredients).filter
      (fun ing => ingredientAvailable ["tomato", "cheese", "eggs"] ing)).length = 3 := by decide
  have hl4 : exampleRecipe.ingredients.length = 4 := by decide
  refine ⟨rfl, ?_, ?_, ?_, ?_, ?_⟩
  · simp [mkResult, hlen]
  · simp only [mkResult, hlen, if_neg hlen]
    positivity
  · simp only [mkResult, if_neg hlen]
    rw [div_le_one hlpos]
    exact hfle
  · simp only [mkResult, hm3, hl4]
    norm_num
  · simp only [mkResult, hm3]

/-- Witness for C1 at the spec's worked example. -/
theorem mkResult_score_spec_witness :
    exampleRecipe.ingredients ≠ [] ∧
    (mkResult ["tomato", "cheese", "eggs"] exampleRecipe).match_score = 3/4 :=
  ⟨by decide, (mkResult_score_spec ["tomato", "cheese", "eggs"] exampleRecipe (by decide)).2.2.2.2.1⟩

/-- C2: every result list the matcher returns is pairwise ordered — descending
by `match_score`, ties by descending matched count, then ascending recipe
identifier. -/
theorem matchRecipes_ranked (u : List String) (c : List Recipe) :
    (matchRecipes u c).Pairwise (fun A B =>
      A.match_score > B.match_score ∨
        (A.match_score = B.match_score ∧ A.matched_ingredients ≥ B.matched_ingredients) ∨
        (A.match_score = B.match_score ∧ A.matched_ingredients = B.matched_ingredients ∧
          A.recipe.id < B.recipe.id)) := by
  by_cases hp : ((c.map (mkResult u)).filter (fun mr => mr.match_score != 0)) = []
  · have heq : matchRecipes u c = fallbackResults c := by
      simp [matchRecipes, hp]
    rw [heq]
    unfold fallbackResults
    refine List.pairwise_map.mpr (List.pairwise_of_forall ?_)
    intro a b
    exact Or.inr (Or.inl ⟨rfl, le_refl 0⟩)
  · have heq : matchRecipes u c =
        List.insertionSort rankRel
          ((c.map (mkResult u)).filter (fun mr => mr.match_score != 0)) := by
      simp [matchRecipes, hp]
    rw [heq]
    exact (List.sorted_insertionSort rankRel _).imp (fun h => rankRel_imp_claim h)

/-- C3: for every non-empty catalog the matcher returns a non-empty list;
zero-score recipes are excluded from the primary result (a returned zero-score
element only happens on the fallback path), and when no recipe shares an
ingredient with the user the result is the fixed fallback subset with every
element annotated `match_score = 0`. -/
theorem matchRecipes_nonempty_fallback (u : List String) (c : List Recipe) (h : c ≠ []) :
    matchRecipes u c ≠ [] ∧
    (∀ mr ∈ matchRecipes u c, mr.match_score = 0 → matchRecipes u c = fallbackResults c) ∧
    ((∀ r ∈ c, (mkResult u r).match_score = 0) →
      matchRecipes u c = fallbackResults c ∧ ∀ mr ∈ matchRecipes u c, mr.match_score = 0) := by
  by_cases hp : ((c.map (mkResult u)).filter (fun mr => mr.match_score != 0)) = []
  · have heq : matchRecipes u c = fallbackResults c := by
      simp [matchRecipes, hp]
    refine ⟨heq ▸ fallbackResults_ne_nil c h, fun _ _ _ => heq, fun _ => ⟨heq, ?_⟩⟩
    rw [heq]
    exact fallbackResults_score_zero c
  · have heq : matchRecipes u c =
        List.insertionSort rankRel
          ((c.map (mkResult u)).filter (fun mr => mr.match_score != 0)) := by
      simp [matchRecipes, hp]
    have hprim : 0 < ((c.map (mkResult u)).filter (fun mr => mr.match_score != 0)).length :=
      List.length_pos.mpr hp
    have hsortlen := (List.perm_insertionSort rankRel
      ((c.map (mkResult u)).filter (fun mr => mr.match_score != 0))).length_eq
    refine ⟨?_, ?_, ?_⟩
    · rw [heq]
      intro hnil
      have hl0 := congrArg List.length hnil
      simp only [List.length_nil, hsortlen] at hl0
      omega
    · intro mr hmr h0
      rw [heq] at hmr
      have hmem : mr ∈ (c.map (mkResult u)).filter (fun mr => mr.match_score != 0) :=
        (List.perm_insertionSort rankRel _).subset hmr
      have hne := (List.mem_filter.mp hmem).2
      simp [h0] at hne
    · intro hall
      exfalso
      apply hp
      rw [List.filter_eq_nil_iff]
      intro mr hmr
      obtain ⟨r, hr, rfl⟩ := List.mem_map.mp hmr
      simp [hall r hr]

/-- Witness for C3: an empty user list against a one-recipe catalog still
yields a non-empty result. -/
theorem matchRecipes_nonempty_fallback_witness :
    ([exampleRecipe] : List Recipe) ≠ [] ∧ matchRecipes [] [exampleRecipe] ≠ [] :=
  ⟨by decide, (matchRecipes_nonempty_fallback [] [exampleRecipe] (by decide)).1⟩

/-- C4: for every caption string, `extract` (a total function, so it cannot
raise) returns a non-empty ingredient list containing only canonical names;
degenerate input — fewer detected ingredients than the threshold — degrades to
the deterministic fallback set instead of an empty list or an error. -/
theorem extract_total_canonical (caption : String) :
    (extract caption).1 ≠ [] ∧
    (∀ i ∈ (extract caption).1, i ∈ canonicalNames) ∧
    ((detectIngredients caption).length < minIngredients →
      extract caption = (fallbackIngredients, fallbackConfidence)) := by
  by_cases hlt : (detectIngredients caption).length < minIngredients
  · have heq : extract caption = (fallbackIngredients, fallbackConfidence) := by
      simp [extract, hlt]
    rw [heq]
    exact ⟨by decide, by decide, fun _ => rfl⟩
  · have heq : extract caption = (detectIngredients caption, detectionConfidence) := by
      simp [extract, hlt]
    rw [heq]
    refine ⟨?_, ?_, fun hc => absurd hc hlt⟩
    · intro hnil
      have hnil2 : detectIngredients caption = [] := hnil
      rw [hnil2] at hlt
      simp [minIngredients] at hlt
    · intro i hi
      unfold detectIngredients at hi
      obtain ⟨kv, hkv, rfl⟩ := List.mem_map.mp hi
      exact List.mem_map.mpr ⟨kv, (List.mem_filter.mp hkv).1, rfl⟩

/-- C5 counterexample: `addIngredient` tests membership with exact,
case-sensitive equality, so "Tomato" is appended to a list that already holds
"tomato" — the state changes and the resulting list holds two entries that are
equal under case-insensitive comparison. -/
theorem addIngredient_case_insensitive_cex :
    (addIngredient { ingredients := ["tomato"], newIngredient := "Tomato" }).ingredients
        = ["tomato", "Tomato"] ∧
    normalize ("tomato") = normalize ("Tomato") := by
  constructor
  · decide
  · decide

/-- C5 (amended): uniqueness within the list is enforced by exact,
case-sensitive string equality of the trimmed input — adding an ingredient
whose trimmed form already appears verbatim leaves the state unchanged, while
entries differing only in letter case may coexist. -/
theorem addIngredient_exact_duplicate (s : IngredientsState)
    (h : jsTrim s.newIngredient ∈ s.ingredients) : addIngredient s = s := by
  unfold addIngredient
  simp [h]

/-- Witness for the amended C5. -/
theorem addIngredient_exact_duplicate_witness :
    addIngredient { ingredients := ["tomato"], newIngredient := "tomato" }
      = { ingredients := ["tomato"], newIngredient := "tomato" } :=
  addIngredient_exact_duplicate
    { ingredients := ["tomato"], newIngredient := "tomato" } (by decide)

/-- C6: the matcher is a pure function of its two inputs — identical user
lists and catalogs give identical ordered outputs. -/
theorem matchRecipes_deterministic (u₁ u₂ : List String) (c₁ c₂ : List Recipe)
    (hu : u₁ = u₂) (hc : c₁ = c₂) : matchRecipes u₁ c₁ = matchRecipes u₂ c₂ := by
  rw [hu, hc]

/-- Witness for C6. -/
theorem matchRecipes_deterministic_witness :
    matchRecipes ["tomato"] [exampleRecipe] = matchRecipes ["tomato"] [exampleRecipe] :=
  matchRecipes_deterministic ["tomato"] ["tomato"] [exampleRecipe] [exampleRecipe] rfl rfl

/-- C7: removing at a valid index produces the input list with exactly the
element at that position removed — the prefix before it and the suffix after it
unchanged and in order (the embedding is pure, so the input list itself is
untouched). -/
theorem removeIngredient_spec (l : List String) (i : Nat) (h : i < l.length) :
    removeIngredient l i = l.take i ++ l.drop (i + 1) ∧
    (removeIngredient l i).length = l.length - 1 := by
  have main : removeIngredient l i = l.take i ++ l.drop (i + 1) := by
    unfold removeIngredient
    simpa using filterWithIndex_drop_at i l 0 (Nat.zero_le i)
  refine ⟨main, ?_⟩
  rw [main]
  simp [List.length_take, List.length_drop]
  omega

/-- Witness for C7. -/
theorem removeIngredient_spec_witness :
    removeIngredient ["a", "b", "c"] 1 = ["a", "c"] := by
  have h := (removeIngredient_spec ["a", "b", "c"] 1 (by decide)).1
  simpa using h

/-- C8: when the generate-recipes call fails (response with `success = false`
or a thrown error), the stored recipes and the current view are unchanged, an
error message is set, and the loading flag is cleared. -/
theorem handleGenerateRecipes_failure_frame (s : AppState) (o : GenerateOutcome)
    (h : ∀ rs, o ≠ GenerateOutcome.success rs) :
    (handleGenerateRecipes s o).recipes = s.recipes ∧
    (handleGenerateRecipes s o).currentState = s.currentState ∧
    (handleGenerateRecipes s o).error ≠ none ∧
    (handleGenerateRecipes s o).isLoading = false := by
  cases o with
  | success rs => exact absurd rfl (h rs)
  | failure => simp [handleGenerateRecipes]
  | thrown msg => simp [handleGenerateRecipes]

/-- Witness for C8 on a `success = false` response from the `ingredients` view. -/
theorem handleGenerateRecipes_failure_frame_witness :
    (handleGenerateRecipes
        { currentState := AppView.ingredients, recipes := [], isLoading := true, error := none }
        GenerateOutcome.failure).isLoading = false :=
  (handleGenerateRecipes_failure_frame
      { currentState := AppView.ingredients, recipes := [], isLoading := true, error := none }
      GenerateOutcome.failure (fun _ hs => nomatch hs)).2.2.2

/-- C9: when the trimmed input is empty, `addIngredient` leaves the state
unchanged; when it is non-empty and not already present, the trimmed (not raw)
string is appended at the end and the pending input is cleared. -/
theorem addIngredient_add_spec (s : IngredientsState) :
    (jsTrim s.newIngredient = "" → addIngredient s = s) ∧
    (jsTrim s.newIngredient ≠ "" → jsTrim s.newIngredient ∉ s.ingredients →
      (addIngredient s).ingredients = s.ingredients ++ [jsTrim s.newIngredient] ∧
      (addIngredient s).newIngredient = "") := by
  constructor
  · intro h
    unfold addIngredient
    simp [h]
  · intro h1 h2
    unfold addIngredient
    simp [h1, h2]

/-- C10: `RecipeCard` shows the ingredient-match block iff `match_score` is
present and non-zero (the JSX falsy check), so a recipe annotated
`match_score = 0` — as fallback results are — renders without match
information; the matched-ingredients count shows only when additionally
`matched_ingredients` is present and non-zero. -/
theorem recipeCard_match_display (r : Recipe) :
    (showsMatchBlock r = true ↔ ∃ q, r.match_score = some q ∧ q ≠ 0) ∧
    (r.match_score = some 0 → showsMatchBlock r = false) ∧
    (showsMatchedCount r = true →
      (∃ q, r.match_score = some q ∧ q ≠ 0) ∧
        ∃ n, r.matched_ingredients = some n ∧ n ≠ 0) := by
  rcases r with ⟨id, t, d, ings, instrs, pt, ct, sv, df, cu, src, ms, mi⟩
  cases ms with
  | none => simp [showsMatchBlock, showsMatchedCount]
  | some q =>
    cases mi with
    | none => simp [showsMatchBlock, showsMatchedCount, numTruthy]
    | some n => simp [showsMatchBlock, showsMatchedCount, numTruthy, natTruthy]

end RecipeSnap
